import Mathlib

set_option maxRecDepth 16000

/-!
# Verification of the Gliesereum wallet library

Shallow embedding of `src/gliesereum.ts` (address derivation, address
validation, public-key recovery and card-number generation) together with
proofs about the embedded functions.

Modelling conventions:

* Byte sequences (`Buffer`, `Uint8Array`) are `List Nat` with entries `< 256`;
  32-bit words are `Nat` reduced by `% 2^32` wherever JS/the hash primitives
  overflow.
* The trusted hash primitives `SHA256` (crypto-js) and `ripemd160`
  (@noble/hashes) are implemented in full (FIPS 180-4 / RIPEMD-160), so that
  every function of the library is executable; test vectors for both are
  proved below.
* `Buffer.prototype.toString('utf8')` decodes with U+FFFD replacement
  (WHATWG decoder, one replacement per maximal invalid subpart), and
  crypto-js re-encodes the JS string as UTF-8 before hashing; the
  composition of the two is `utf8Encode ∘ utf8DecodeReplace`.
* `bs58` is `base-x` over the Bitcoin alphabet: leading zero bytes map to
  leading `'1'`s and the remainder is the base-58 big-endian numeral; its
  `decode` throws on a character outside the alphabet, which is modelled by
  `Option` (`none` = exception propagated to the caller).  `validateAddress`
  therefore returns `Option Bool`: `some b` is a normal boolean return,
  `none` is an uncaught exception.
* `Buffer.compare(a, b) === 0` is equality of the byte lists.
* JS numbers are IEEE-754 binary64.  All doubles appearing in `cardNumber`
  are nonnegative integers, so they are modelled as `Nat` plus the explicit
  rounding function `roundDouble` (round to nearest, ties to even) applied
  exactly where JS rounds: at `parseInt` (value of 16 hex digits may exceed
  2^53) and at the final `+`.  `%` on integral doubles is exact (fmod) and
  needs no rounding.
* `EC.recoverPubKey`/`encodeCompressed` (library `elliptic`) is an external
  primitive; `recover` takes it as an explicit function argument, `none`
  modelling a thrown (and caught) error.
-/

namespace Gliesereum

/-! ## 32-bit words and byte utilities -/

/-- Reduce to a 32-bit word. -/
def w32 (n : Nat) : Nat := n % 4294967296

/-- 32-bit rotate right (for `x < 2^32`). -/
def rotr32 (x n : Nat) : Nat := w32 ((x >>> n) ||| (x <<< (32 - n)))

/-- 32-bit rotate left (for `x < 2^32`). -/
def rotl32 (x n : Nat) : Nat := w32 ((x <<< n) ||| (x >>> (32 - n)))

/-- Split a list into chunks of `k` elements (fuel-based for kernel
evaluation; `fuel ≥ l.length` suffices). -/
def chunksAux (k : Nat) : Nat → List Nat → List (List Nat)
  | 0, _ => []
  | _, [] => []
  | fuel+1, l => l.take k :: chunksAux k fuel (l.drop k)

/-- Split a list of bytes into chunks of `k` bytes. -/
def chunks (k : Nat) (l : List Nat) : List (List Nat) := chunksAux k l.length l

/-- Big-endian bytes to word. -/
def bytesToWordBE (l : List Nat) : Nat := l.foldl (fun a b => a * 256 + b) 0

/-- Little-endian bytes to word. -/
def bytesToWordLE (l : List Nat) : Nat := l.foldr (fun b a => a * 256 + b) 0

/-- 32-bit word to four big-endian bytes. -/
def wordToBytesBE (w : Nat) : List Nat :=
  [w / 16777216 % 256, w / 65536 % 256, w / 256 % 256, w % 256]

/-- 32-bit word to four little-endian bytes. -/
def wordToBytesLE (w : Nat) : List Nat :=
  [w % 256, w / 256 % 256, w / 65536 % 256, w / 16777216 % 256]

/-- 64-bit length field, big-endian. -/
def lenBytesBE (n : Nat) : List Nat :=
  [n / 72057594037927936 % 256, n / 281474976710656 % 256, n / 1099511627776 % 256,
   n / 4294967296 % 256, n / 16777216 % 256, n / 65536 % 256, n / 256 % 256, n % 256]

/-- Merkle-Damgård padding with big-endian length (SHA-256). -/
def padMessageBE (msg : List Nat) : List Nat :=
  msg ++ [128] ++ List.replicate ((119 - msg.length % 64) % 64) 0 ++ lenBytesBE (8 * msg.length)

/-- Merkle-Damgård padding with little-endian length (RIPEMD-160). -/
def padMessageLE (msg : List Nat) : List Nat :=
  msg ++ [128] ++ List.replicate ((119 - msg.length % 64) % 64) 0 ++ (lenBytesBE (8 * msg.length)).reverse

/-! ## SHA-256 (FIPS 180-4), the `SHA256` primitive of crypto-js -/

/-- SHA-256 round constants (FIPS 180-4 `K`, written in decimal). -/
def sha256K : List Nat :=
  [1116352408, 1899447441, 3049323471, 3921009573, 961987163, 1508970993,
   2453635748, 2870763221, 3624381080, 310598401, 607225278, 1426881987,
   1925078388, 2162078206, 2614888103, 3248222580, 3835390401, 4022224774,
   264347078, 604807628, 770255983, 1249150122, 1555081692, 1996064986,
   2554220882, 2821834349, 2952996808, 3210313671, 3336571891, 3584528711,
   113926993, 338241895, 666307205, 773529912, 1294757372, 1396182291,
   1695183700, 1986661051, 2177026350, 2456956037, 2730485921, 2820302411,
   3259730800, 3345764771, 3516065817, 3600352804, 4094571909, 275423344,
   430227734, 506948616, 659060556, 883997877, 958139571, 1322822218,
   1537002063, 1747873779, 1955562222, 2024104815, 2227730452, 2361852424,
   2428436474, 2756734187, 3204031479, 3329325298]

/-- SHA-256 small sigma 0. -/
def sigma0 (x : Nat) : Nat := rotr32 x 7 ^^^ rotr32 x 18 ^^^ (x >>> 3)

/-- SHA-256 small sigma 1. -/
def sigma1 (x : Nat) : Nat := rotr32 x 17 ^^^ rotr32 x 19 ^^^ (x >>> 10)

/-- Extend the 16 message words to the 64-entry message schedule. -/
def sha256Extend : Nat → List Nat → List Nat
  | 0, w => w
  | fuel+1, w =>
    let i := w.length
    let x := w32 (sigma1 (w.getD (i-2) 0) + w.getD (i-7) 0 + sigma0 (w.getD (i-15) 0) + w.getD (i-16) 0)
    sha256Extend fuel (w ++ [x])

/-- SHA-256 working registers. -/
structure SHRegs where
  a : Nat
  b : Nat
  c : Nat
  d : Nat
  e : Nat
  f : Nat
  g : Nat
  h : Nat

/-- One SHA-256 compression round, driven by a `(k, w)` pair. -/
def sha256Round (r : SHRegs) (kw : Nat × Nat) : SHRegs :=
  let S1 := rotr32 r.e 6 ^^^ rotr32 r.e 11 ^^^ rotr32 r.e 25
  let ch := (r.e &&& r.f) ^^^ ((4294967295 ^^^ r.e) &&& r.g)
  let t1 := w32 (r.h + S1 + ch + kw.1 + kw.2)
  let S0 := rotr32 r.a 2 ^^^ rotr32 r.a 13 ^^^ rotr32 r.a 22
  let mj := (r.a &&& r.b) ^^^ (r.a &&& r.c) ^^^ (r.b &&& r.c)
  let t2 := w32 (S0 + mj)
  ⟨w32 (t1 + t2), r.a, r.b, r.c, w32 (r.d + t1), r.e, r.f, r.g⟩

/-- SHA-256 chaining state. -/
structure SHState where
  h0 : Nat
  h1 : Nat
  h2 : Nat
  h3 : Nat
  h4 : Nat
  h5 : Nat
  h6 : Nat
  h7 : Nat

/-- SHA-256 initial state (FIPS 180-4 `H⁰`, written in decimal). -/
def sha256Init : SHState :=
  ⟨1779033703, 3144134277, 1013904242, 2773480762, 1359893119, 2600822924, 528734635, 1541459225⟩

/-- SHA-256 compression of one 64-byte block. -/
def sha256Block (st : SHState) (block : List Nat) : SHState :=
  let w := sha256Extend 48 ((chunks 4 block).map bytesToWordBE)
  let r := (sha256K.zip w).foldl sha256Round ⟨st.h0, st.h1, st.h2, st.h3, st.h4, st.h5, st.h6, st.h7⟩
  ⟨w32 (st.h0 + r.a), w32 (st.h1 + r.b), w32 (st.h2 + r.c), w32 (st.h3 + r.d),
   w32 (st.h4 + r.e), w32 (st.h5 + r.f), w32 (st.h6 + r.g), w32 (st.h7 + r.h)⟩

/-- SHA-256 of a byte sequence, as a 32-byte digest. -/
def sha256 (msg : List Nat) : List Nat :=
  let st := (chunks 64 (padMessageBE msg)).foldl sha256Block sha256Init
  (([st.h0, st.h1, st.h2, st.h3, st.h4, st.h5, st.h6, st.h7]).map wordToBytesBE).flatten

/-! ## RIPEMD-160, the `ripemd160` primitive of @noble/hashes -/

/-- RIPEMD-160 round function, selected by the 16-round group `j`. -/
def rmdF (j x y z : Nat) : Nat :=
  if j = 0 then x ^^^ y ^^^ z
  else if j = 1 then (x &&& y) ||| ((4294967295 ^^^ x) &&& z)
  else if j = 2 then (x ||| (4294967295 ^^^ y)) ^^^ z
  else if j = 3 then (x &&& z) ||| (y &&& (4294967295 ^^^ z))
  else x ^^^ (y ||| (4294967295 ^^^ z))

/-- RIPEMD-160 round constants, left line. -/
def rmdKL : List Nat := [0, 0x5a827999, 0x6ed9eba1, 0x8f1bbcdc, 0xa953fd4e]

/-- RIPEMD-160 round constants, right line. -/
def rmdKR : List Nat := [0x50a28be6, 0x5c4dd124, 0x6d703ef3, 0x7a6d76e9, 0]

/-- RIPEMD-160 message word selection, left line. -/
def rmdSelL : List Nat :=
  [0,1,2,3,4,5,6,7,8,9,10,11,12,13,14,15,
   7,4,13,1,10,6,15,3,12,0,9,5,2,14,11,8,
   3,10,14,4,9,15,8,1,2,7,0,6,13,11,5,12,
   1,9,11,10,0,8,12,4,13,3,7,15,14,5,6,2,
   4,0,5,9,7,12,2,10,14,1,3,8,11,6,15,13]

/-- RIPEMD-160 message word selection, right line. -/
def rmdSelR : List Nat :=
  [5,14,7,0,9,2,11,4,13,6,15,8,1,10,3,12,
   6,11,3,7,0,13,5,10,14,15,8,12,4,9,1,2,
   15,5,1,3,7,14,6,9,11,8,12,2,10,0,4,13,
   8,6,4,1,3,11,15,0,5,12,2,13,9,7,10,14,
   12,15,10,4,1,5,8,7,6,2,13,14,0,3,9,11]

/-- RIPEMD-160 rotation amounts, left line. -/
def rmdShL : List Nat :=
  [11,14,15,12,5,8,7,9,11,13,14,15,6,7,9,8,
   7,6,8,13,11,9,7,15,7,12,15,9,11,7,13,12,
   11,13,6,7,14,9,13,15,14,8,13,6,5,12,7,5,
   11,12,14,15,14,15,9,8,9,14,5,6,8,6,5,12,
   9,15,5,11,6,8,13,12,5,12,13,14,11,8,5,6]

/-- RIPEMD-160 rotation amounts, right line. -/
def rmdShR : List Nat :=
  [8,9,9,11,13,15,15,5,7,7,8,11,14,14,12,6,
   9,13,15,7,12,8,9,11,7,7,12,7,6,15,13,11,
   9,7,15,11,8,6,6,14,12,13,5,14,13,13,7,5,
   15,5,8,11,14,14,6,14,6,9,12,9,12,5,15,8,
   8,5,12,9,12,5,14,6,8,13,6,5,15,13,11,11]

/-- Five RIPEMD-160 working registers of one line. -/
structure R5 where
  a : Nat
  b : Nat
  c : Nat
  d : Nat
  e : Nat

/-- One RIPEMD-160 round of the left (`left = true`) or right line. -/
def rmdStep (X : List Nat) (left : Bool) (st : R5) (i : Nat) : R5 :=
  let j := i / 16
  let fj := if left then rmdF j st.b st.c st.d else rmdF (4 - j) st.b st.c st.d
  let K := (if left then rmdKL else rmdKR).getD j 0
  let x := X.getD ((if left then rmdSelL else rmdSelR).getD i 0) 0
  let s := (if left then rmdShL else rmdShR).getD i 0
  let T := w32 (rotl32 (w32 (st.a + fj + x + K)) s + st.e)
  ⟨st.e, T, st.b, rotl32 st.c 10, st.d⟩

/-- RIPEMD-160 chaining state. -/
structure RState where
  h0 : Nat
  h1 : Nat
  h2 : Nat
  h3 : Nat
  h4 : Nat

/-- RIPEMD-160 initial state. -/
def rmdInit : RState := ⟨0x67452301, 0xefcdab89, 0x98badcfe, 0x10325476, 0xc3d2e1f0⟩

/-- RIPEMD-160 compression of one 64-byte block (both lines plus the
cross-over recombination). -/
def rmdBlock (st : RState) (block : List Nat) : RState :=
  let X := (chunks 4 block).map bytesToWordLE
  let L := (List.range 80).foldl (rmdStep X true) ⟨st.h0, st.h1, st.h2, st.h3, st.h4⟩
  let R := (List.range 80).foldl (rmdStep X false) ⟨st.h0, st.h1, st.h2, st.h3, st.h4⟩
  ⟨w32 (st.h1 + L.c + R.d), w32 (st.h2 + L.d + R.e), w32 (st.h3 + L.e + R.a),
   w32 (st.h4 + L.a + R.b), w32 (st.h0 + L.b + R.c)⟩

/-- RIPEMD-160 digest serialisation of a chaining state (20 bytes,
little-endian words). -/
def rmdDigest (st : RState) : List Nat :=
  (([st.h0, st.h1, st.h2, st.h3, st.h4]).map wordToBytesLE).flatten

/-- RIPEMD-160 of a byte sequence, as a 20-byte digest. -/
def ripemd160 (msg : List Nat) : List Nat :=
  rmdDigest ((chunks 64 (padMessageLE msg)).foldl rmdBlock rmdInit)

/-! ## UTF-8: `Buffer.toString('utf8')` and string-to-bytes -/

/-- UTF-8 encoding of one code point. -/
def utf8EncodeChar (c : Nat) : List Nat :=
  if c < 128 then [c]
  else if c < 2048 then [192 + c / 64, 128 + c % 64]
  else if c < 65536 then [224 + c / 4096, 128 + c / 64 % 64, 128 + c % 64]
  else [240 + c / 262144, 128 + c / 4096 % 64, 128 + c / 64 % 64, 128 + c % 64]

/-- UTF-8 encoding of a code-point sequence. -/
def utf8Encode (cs : List Nat) : List Nat := (cs.map utf8EncodeChar).flatten

/-- The UTF-8 bytes of a Lean string (JS strings in this library never hold
lone surrogates, so this matches the crypto-js `Utf8.parse` of the string). -/
def strBytes (s : String) : List Nat := utf8Encode (s.data.map Char.toNat)

/-- WHATWG UTF-8 decoder with replacement: one U+FFFD per maximal invalid
subpart, resuming at the offending byte.  This is `Buffer.toString('utf8')`.
Fuel-based; every step consumes at least one byte, so `fuel = length`
suffices. -/
def utf8DecodeAux : Nat → List Nat → List Nat
  | 0, _ => []
  | _, [] => []
  | fuel+1, b :: rest =>
    if b < 128 then b :: utf8DecodeAux fuel rest
    else if 194 ≤ b && b ≤ 223 then
      match rest with
      | [] => [65533]
      | b1 :: rest1 =>
        if 128 ≤ b1 && b1 ≤ 191 then
          ((b - 192) * 64 + (b1 - 128)) :: utf8DecodeAux fuel rest1
        else 65533 :: utf8DecodeAux fuel rest
    else if 224 ≤ b && b ≤ 239 then
      match rest with
      | [] => [65533]
      | b1 :: rest1 =>
        if (if b = 224 then 160 else 128) ≤ b1 && b1 ≤ (if b = 237 then 159 else 191) then
          match rest1 with
          | [] => [65533]
          | b2 :: rest2 =>
            if 128 ≤ b2 && b2 ≤ 191 then
              ((b - 224) * 4096 + (b1 - 128) * 64 + (b2 - 128)) :: utf8DecodeAux fuel rest2
            else 65533 :: utf8DecodeAux fuel rest1
        else 65533 :: utf8DecodeAux fuel rest
    else if 240 ≤ b && b ≤ 244 then
      match rest with
      | [] => [65533]
      | b1 :: rest1 =>
        if (if b = 240 then 144 else 128) ≤ b1 && b1 ≤ (if b = 244 then 143 else 191) then
          match rest1 with
          | [] => [65533]
          | b2 :: rest2 =>
            if 128 ≤ b2 && b2 ≤ 191 then
              match rest2 with
              | [] => [65533]
              | b3 :: rest3 =>
                if 128 ≤ b3 && b3 ≤ 191 then
                  ((b - 240) * 262144 + (b1 - 128) * 4096 + (b2 - 128) * 64 + (b3 - 128)) ::
                    utf8DecodeAux fuel rest3
                else 65533 :: utf8DecodeAux fuel rest2
            else 65533 :: utf8DecodeAux fuel rest1
        else 65533 :: utf8DecodeAux fuel rest
    else 65533 :: utf8DecodeAux fuel rest

/-- `Buffer.toString('utf8')`: code points of the replacement-decoded text. -/
def utf8DecodeReplace (bytes : List Nat) : List Nat := utf8DecodeAux bytes.length bytes

/-! ## Lowercase hex, `WordArray.toString()` of crypto-js -/

/-- ASCII code of the lowercase hex digit for `d < 16`. -/
def hexDigitChar (d : Nat) : Nat := if d < 10 then 48 + d else 87 + d

/-- Lowercase-hex rendering of a byte sequence, as ASCII codes (these are
exactly the UTF-8 bytes of the hex string). -/
def bytesToHexAscii (l : List Nat) : List Nat :=
  (l.map (fun b => [hexDigitChar (b / 16), hexDigitChar (b % 16)])).flatten

/-- Numeric value of an ASCII lowercase hex digit (`parseInt` digit step). -/
def hexDigitVal (c : Nat) : Nat := if c < 58 then c - 48 else c - 87

/-! ## The library: hashing, checksum, address -/

/-- `CHECKSUM_SIZE` of the source. -/
def CHECKSUM_SIZE : Nat := 1

/-- `createHash` of the source:
`Buffer.from(ripemd160.create().update(Buffer.from(SHA256(bytes.toString('utf8')).toString(), 'utf8')).digest())`.
The bytes are UTF-8-decoded to text (with replacement), crypto-js hashes the
UTF-8 re-encoding of that text, and RIPEMD-160 is applied to the ASCII bytes
of the lowercase-hex rendering of the SHA-256 digest. -/
def createHash (bytes : List Nat) : List Nat :=
  ripemd160 (bytesToHexAscii (sha256 (utf8Encode (utf8DecodeReplace bytes))))

/-- `createChecksum` of the source: `createHash(createHash(bytes)).slice(0, CHECKSUM_SIZE)`. -/
def createChecksum (bytes : List Nat) : List Nat :=
  (createHash (createHash bytes)).take CHECKSUM_SIZE

/-- The short-hash operation as the specification words it: `RIPEMD160(SHA256(bytes))`
computed over the raw bytes, with no textual re-encoding before the first
stage or between the two stages.  (Stated from the spec for comparison with
`createHash`.) -/
def specShortHash (bytes : List Nat) : List Nat := ripemd160 (sha256 bytes)

/-! ## Base58 (`bs58` = `base-x` with the Bitcoin alphabet) -/

/-- The Bitcoin Base58 alphabet. -/
def b58Alphabet : List Char :=
  "123456789ABCDEFGHJKLMNPQRSTUVWXYZabcdefghijkmnopqrstuvwxyz".data

/-- Digit value to alphabet character. -/
def b58CharOfDigit (d : Nat) : Char := b58Alphabet.getD d '1'

/-- Alphabet character to digit value; `none` for a character outside the
alphabet (`base-x` throws there). -/
def b58DigitOfChar (c : Char) : Option Nat := b58Alphabet.findIdx? (fun a => a == c)

/-- Little-endian base-`b` digits of `n` (fuel-based; `fuel ≥ n` suffices). -/
def digitsLEAux (b : Nat) : Nat → Nat → List Nat
  | 0, _ => []
  | fuel+1, n => if n = 0 then [] else n % b :: digitsLEAux b fuel (n / b)

/-- Little-endian base-`b` digits of `n`. -/
def digitsLE (b n : Nat) : List Nat := digitsLEAux b n n

/-- Minimal big-endian byte representation of `n` (empty for `0`), as
`base-x` produces after skipping leading zero limbs. -/
def natToBeBytes (n : Nat) : List Nat := (digitsLE 256 n).reverse

/-- `bs58.encode`: leading zero bytes become leading `'1'`s, the remainder is
the big-endian base-58 numeral of the byte string's value. -/
def bsEncode (bytes : List Nat) : String :=
  let zeros := (bytes.takeWhile (fun b => b == 0)).length
  let n := bytes.foldl (fun a b => a * 256 + b) 0
  String.mk ((List.replicate zeros 0 ++ (digitsLE 58 n).reverse).map b58CharOfDigit)

/-- Character-by-character digit lookup of `base-x` decode; `none` as soon as
one character is outside the alphabet. -/
def b58DecodeDigits : List Char → Option (List Nat)
  | [] => some []
  | c :: cs =>
    match b58DigitOfChar c with
    | none => none
    | some d =>
      match b58DecodeDigits cs with
      | none => none
      | some ds => some (d :: ds)

/-- `bs58.decode`: leading `'1'`s become leading zero bytes, the remaining
digits are read as a base-58 numeral and written in minimal big-endian bytes.
`none` models the exception `base-x` throws on a non-alphabet character. -/
def bsDecode (s : String) : Option (List Nat) :=
  (b58DecodeDigits s.data).map fun digits =>
    List.replicate ((digits.takeWhile (fun d => d == 0)).length) 0 ++
      natToBeBytes (digits.foldl (fun a d => a * 58 + d) 0)

/-- `getAddress` of the source. -/
def getAddress (bytes : List Nat) : String :=
  let pubKeyHash := createHash bytes
  let versionAndHash := 144 :: pubKeyHash
  let checksum := createChecksum versionAndHash
  let fullPayload := versionAndHash ++ checksum
  bsEncode fullPayload

/-- `validateAddress` of the source.  `decodedKey[0]` on an empty decode is
`undefined`, which `Buffer.from([version])` coerces to the byte `0`, hence
`headD 0`; `slice(1, -1)` is `dropLast ∘ drop 1`; `slice(-1)` is
`drop (length - 1)`; `Buffer.compare(..) === 0` is list equality.  `none` is
the uncaught `bs58.decode` exception. -/
def validateAddress (address : String) : Option Bool :=
  (bsDecode address).map fun decodedKey =>
    let version := decodedKey.headD 0
    let payload := (decodedKey.drop 1).dropLast
    let actualChecksum := decodedKey.drop (decodedKey.length - CHECKSUM_SIZE)
    let targetChecksum := createChecksum (version :: payload)
    decide (targetChecksum = actualChecksum)

/-! ## Signatures and recovery -/

/-- The fields of an `elliptic` signature that `recover` inspects. -/
structure ECSignature where
  r : Nat
  s : Nat
  recoveryParam : Option Nat

/-- `recover` of the source.  `recoverPubKey` is the external
`EC.recoverPubKey` + `encodeCompressed('hex')` primitive of `elliptic`
(`none` = it threw; the source catches, logs and falls through).  When
`sig.recoveryParam` is not a number, or the primitive throws, the source
returns the sentinel string `"invalid"`. -/
def recover (recoverPubKey : String → ECSignature → Nat → Option String)
    (data : String) (sig : ECSignature) : String :=
  match sig.recoveryParam with
  | some rid =>
    match recoverPubKey data sig rid with
    | some recovered => recovered
    | none => "invalid"
  | none => "invalid"

/-! ## Card numbers -/

/-- Bit length of `n` (fuel-based). -/
def bitlenAux : Nat → Nat → Nat
  | 0, _ => 0
  | fuel+1, n => if n = 0 then 0 else bitlenAux fuel (n / 2) + 1

/-- Bit length of `n`. -/
def bitlen (n : Nat) : Nat := bitlenAux n n

/-- Round a nonnegative integer to the nearest IEEE-754 binary64 value
(round to nearest, ties to even): exact below `2^53`, otherwise rounded to
the grid `2^(bitlen n - 53)`. -/
def roundDouble (n : Nat) : Nat :=
  if bitlen n ≤ 53 then n
  else if n % 2 ^ (bitlen n - 53) < 2 ^ (bitlen n - 53) / 2 then
    n / 2 ^ (bitlen n - 53) * 2 ^ (bitlen n - 53)
  else if 2 ^ (bitlen n - 53) / 2 < n % 2 ^ (bitlen n - 53) then
    (n / 2 ^ (bitlen n - 53) + 1) * 2 ^ (bitlen n - 53)
  else if n / 2 ^ (bitlen n - 53) % 2 = 0 then
    n / 2 ^ (bitlen n - 53) * 2 ^ (bitlen n - 53)
  else (n / 2 ^ (bitlen n - 53) + 1) * 2 ^ (bitlen n - 53)

/-- `cardNumber` of the source:
`parseInt(SHA256(input).toString().substr(0, 16), 16)` is the value of the
first 16 hex digits of the digest converted to a binary64 double
(`roundDouble`), `% 9000000000000000` is exact on such doubles, and the
final `+` is a binary64 addition (`roundDouble` again, since the sum can
exceed `2^53`). -/
def cardNumber (input : String) : Nat :=
  let digest := sha256 (strBytes input)
  let hex16 := (bytesToHexAscii digest).take 16
  let num := roundDouble (hex16.foldl (fun a c => a * 16 + hexDigitVal c) 0)
  roundDouble (1000000000000000 + num % 9000000000000000)

/-- `cardNumber` as the specification words it: the first 16 hex characters
of the digest interpreted as an exact 64-bit unsigned integer `n`, and
`10^15 + (n mod 9·10^15)` computed in exact integer arithmetic.  (Stated
from the spec for comparison with `cardNumber`.) -/
def specCardNumber (input : String) : Nat :=
  let digest := sha256 (strBytes input)
  let hex16 := (bytesToHexAscii digest).take 16
  1000000000000000 + (hex16.foldl (fun a c => a * 16 + hexDigitVal c) 0) % 9000000000000000

/-! ## Test vectors for the two hash primitives -/

/-- SHA-256 test vector: the empty message. -/
theorem sha256_vector_empty :
    sha256 [] =
      [0xe3, 0xb0, 0xc4, 0x42, 0x98, 0xfc, 0x1c, 0x14, 0x9a, 0xfb, 0xf4, 0xc8, 0x99, 0x6f, 0xb9, 0x24,
       0x27, 0xae, 0x41, 0xe4, 0x64, 0x9b, 0x93, 0x4c, 0xa4, 0x95, 0x99, 0x1b, 0x78, 0x52, 0xb8, 0x55] := by
  decide

/-- SHA-256 test vector: `"abc"`. -/
theorem sha256_vector_abc :
    sha256 [97, 98, 99] =
      [0xba, 0x78, 0x16, 0xbf, 0x8f, 0x01, 0xcf, 0xea, 0x41, 0x41, 0x40, 0xde, 0x5d, 0xae, 0x22, 0x23,
       0xb0, 0x03, 0x61, 0xa3, 0x96, 0x17, 0x7a, 0x9c, 0xb4, 0x10, 0xff, 0x61, 0xf2, 0x00, 0x15, 0xad] := by
  decide

/-- RIPEMD-160 test vector: the empty message. -/
theorem ripemd160_vector_empty :
    ripemd160 [] =
      [0x9c, 0x11, 0x85, 0xa5, 0xc5, 0xe9, 0xfc, 0x54, 0x61, 0x28,
       0x08, 0x97, 0x7e, 0xe8, 0xf5, 0x48, 0xb2, 0x25, 0x8d, 0x31] := by
  decide

/-- RIPEMD-160 test vector: `"abc"`. -/
theorem ripemd160_vector_abc :
    ripemd160 [97, 98, 99] =
      [0x8e, 0xb2, 0x08, 0xf7, 0xe0, 0x5d, 0x98, 0x7a, 0x9b, 0x04,
       0x4a, 0x8e, 0x98, 0xc6, 0xb0, 0x87, 0xf1, 0x5a, 0x0b, 0xfc] := by
  decide

/-! ## Digit conversions -/

/-- The fuel-based digit function agrees with `Nat.digits` once the fuel
covers the argument. -/
theorem digitsLEAux_eq_digits {b : Nat} (hb : 2 ≤ b) :
    ∀ fuel n, n ≤ fuel → digitsLEAux b fuel n = Nat.digits b n := by
  intro fuel
  induction fuel with
  | zero =>
    intro n hn
    have h0 : n = 0 := by omega
    subst h0
    simp [digitsLEAux]
  | succ f ih =>
    intro n hn
    by_cases h0 : n = 0
    · subst h0; simp [digitsLEAux]
    · have hdiv : n / b < n := Nat.div_lt_self (Nat.pos_of_ne_zero h0) (by omega)
      have hrec := ih (n / b) (by omega)
      simp only [digitsLEAux, h0, if_false]
      rw [hrec, Nat.digits_def' (by omega : 1 < b) (Nat.pos_of_ne_zero h0)]

/-- `digitsLE` computes `Nat.digits`. -/
theorem digitsLE_eq_digits {b : Nat} (hb : 2 ≤ b) (n : Nat) :
    digitsLE b n = Nat.digits b n :=
  digitsLEAux_eq_digits hb n n le_rfl

/-- The multiply-add accumulation loop of `base-x` computes the positional
value of the scanned digits. -/
theorem foldl_mul_add_eq (B : Nat) :
    ∀ (l : List Nat) (acc : Nat),
      l.foldl (fun a x => a * B + x) acc = Nat.ofDigits B l.reverse + acc * B ^ l.length := by
  intro l
  induction l with
  | nil => intro acc; simp
  | cons x t ih =>
    intro acc
    simp only [List.foldl_cons, List.reverse_cons, List.length_cons]
    rw [ih (acc * B + x), Nat.ofDigits_append]
    simp only [Nat.ofDigits_singleton, List.length_reverse]
    ring

/-! ## Base58 helper lemmas -/

/-- Every base-58 digit survives the alphabet round trip. -/
theorem b58_digit_roundtrip : ∀ d, d < 58 → b58DigitOfChar (b58CharOfDigit d) = some d := by
  decide

/-- Decoding the characters of an encoded digit string recovers the digits. -/
theorem b58DecodeDigits_map (ds : List Nat) (h : ∀ d ∈ ds, d < 58) :
    b58DecodeDigits (ds.map b58CharOfDigit) = some ds := by
  induction ds with
  | nil => rfl
  | cons d t ih =>
    have hd : b58DigitOfChar (b58CharOfDigit d) = some d :=
      b58_digit_roundtrip d (h d (List.mem_cons_self d t))
    have ht : b58DecodeDigits (t.map b58CharOfDigit) = some t :=
      ih (fun x hx => h x (List.mem_cons_of_mem d hx))
    simp [b58DecodeDigits, hd, ht]

/-- The digit scan fails exactly when some character is outside the
alphabet. -/
theorem b58DecodeDigits_eq_none_iff (cs : List Char) :
    b58DecodeDigits cs = none ↔ ∃ c ∈ cs, b58DigitOfChar c = none := by
  induction cs with
  | nil => simp [b58DecodeDigits]
  | cons c t ih =>
    cases hc : b58DigitOfChar c with
    | none => simp [b58DecodeDigits, hc]
    | some d =>
      cases ht : b58DecodeDigits t with
      | none =>
        simp only [b58DecodeDigits, hc, ht]
        refine ⟨fun _ => ?_, fun _ => by trivial⟩
        obtain ⟨x, hx, hxn⟩ := ih.mp ht
        exact ⟨x, List.mem_cons_of_mem c hx, hxn⟩
      | some ds =>
        simp only [b58DecodeDigits, hc, ht]
        constructor
        · intro h; exact (Option.some_ne_none _ h).elim
        · rintro ⟨x, hx, hxn⟩
          rcases List.mem_cons.mp hx with rfl | hx
          · rw [hc] at hxn; exact (Option.some_ne_none _ hxn).elim
          · have hn := ih.mpr ⟨x, hx, hxn⟩
            rw [ht] at hn
            exact (Option.some_ne_none _ hn).elim

/-! ## Digest shape -/

/-- A serialised word is four bytes. -/
theorem mem_wordToBytesLE {x w : Nat} (h : x ∈ wordToBytesLE w) : x < 256 := by
  simp only [wordToBytesLE, List.mem_cons, List.not_mem_nil, or_false] at h
  rcases h with rfl | rfl | rfl | rfl <;> omega

/-- A RIPEMD-160 digest has 20 bytes. -/
theorem rmdDigest_length (st : RState) : (rmdDigest st).length = 20 := by
  simp [rmdDigest, wordToBytesLE]

/-- Every entry of a RIPEMD-160 digest is a byte. -/
theorem rmdDigest_mem_lt {x : Nat} {st : RState} (hx : x ∈ rmdDigest st) : x < 256 := by
  simp only [rmdDigest, List.mem_flatten] at hx
  obtain ⟨s, hs, hxs⟩ := hx
  obtain ⟨w, _, rfl⟩ := List.mem_map.mp hs
  exact mem_wordToBytesLE hxs

/-- `createHash` always returns 20 bytes, whatever the input. -/
theorem createHash_length (bytes : List Nat) : (createHash bytes).length = 20 :=
  rmdDigest_length _

/-- Every entry of a `createHash` digest is a byte. -/
theorem createHash_mem_lt {x : Nat} {bytes : List Nat} (hx : x ∈ createHash bytes) : x < 256 :=
  rmdDigest_mem_lt hx

/-- `createChecksum` always returns exactly one byte. -/
theorem createChecksum_single (l : List Nat) :
    ∃ c, c < 256 ∧ createChecksum l = [c] := by
  have h20 := createHash_length (createHash l)
  cases hcc : createHash (createHash l) with
  | nil => rw [hcc] at h20; simp at h20
  | cons c tail =>
    refine ⟨c, ?_, ?_⟩
    · have hm : c ∈ createHash (createHash l) := by
        rw [hcc]; exact List.mem_cons_self c tail
      exact createHash_mem_lt hm
    · simp [createChecksum, CHECKSUM_SIZE, hcc]

/-! ## Base58 round trip -/

/-- The character list underlying `String.mk`. -/
theorem string_mk_data (l : List Char) : (String.mk l).data = l := rfl

/-- `base-x` decode inverts `base-x` encode on byte strings with a nonzero
leading byte (every address payload starts with the version byte `0x90`). -/
theorem bsDecode_bsEncode (b : Nat) (rest : List Nat) (hb0 : b ≠ 0) (hb : b < 256)
    (hrest : ∀ x ∈ rest, x < 256) :
    bsDecode (bsEncode (b :: rest)) = some (b :: rest) := by
  have hbeq : (b == 0) = false := beq_eq_false_iff_ne.mpr hb0
  have hNval : (b :: rest).foldl (fun a x => a * 256 + x) 0 =
      Nat.ofDigits 256 (b :: rest).reverse := by
    rw [foldl_mul_add_eq]
    simp
  have hNpos : Nat.ofDigits 256 (b :: rest).reverse ≠ 0 := by
    rw [List.reverse_cons, Nat.ofDigits_append]
    have hbpos : 0 < b := Nat.pos_of_ne_zero hb0
    have h1 : 0 < 256 ^ rest.reverse.length * Nat.ofDigits 256 [b] := by
      simp only [Nat.ofDigits_singleton]
      exact Nat.mul_pos (pow_pos (by norm_num) _) hbpos
    omega
  set N := Nat.ofDigits 256 (b :: rest).reverse with hN
  have hdigits_ne : Nat.digits 58 N ≠ [] := Nat.digits_ne_nil_iff_ne_zero.mpr hNpos
  obtain ⟨d, ds, hds⟩ : ∃ d ds, (Nat.digits 58 N).reverse = d :: ds := by
    cases hrev : (Nat.digits 58 N).reverse with
    | nil =>
      have hnil : Nat.digits 58 N = [] := by
        have := congrArg List.reverse hrev
        simpa using this
      exact absurd hnil hdigits_ne
    | cons d ds => exact ⟨d, ds, rfl⟩
  have hd_ne : d ≠ 0 := by
    have h1 : (Nat.digits 58 N).getLast? = some d := by
      rw [← List.head?_reverse, hds]; rfl
    have h2 : (Nat.digits 58 N).getLast hdigits_ne ≠ 0 := Nat.getLast_digit_ne_zero 58 hNpos
    rw [List.getLast?_eq_getLast _ hdigits_ne] at h1
    injection h1 with h1
    exact h1 ▸ h2
  have hdeq : (d == 0) = false := beq_eq_false_iff_ne.mpr hd_ne
  have hdlt : ∀ x ∈ (Nat.digits 58 N).reverse, x < 58 := fun x hx =>
    Nat.digits_lt_base (by norm_num) (List.mem_reverse.mp hx)
  have hvalue : (d :: ds).foldl (fun a x => a * 58 + x) 0 = N := by
    rw [← hds, foldl_mul_add_eq]
    simp [Nat.ofDigits_digits]
  have hbytes : Nat.digits 256 N = (b :: rest).reverse := by
    rw [hN]
    apply Nat.digits_ofDigits 256 (by norm_num)
    · intro x hx
      rcases List.mem_cons.mp (List.mem_reverse.mp hx) with rfl | hx2
      · exact hb
      · exact hrest x hx2
    · intro hne
      have h1 : ((b :: rest).reverse).getLast? = some b := by
        rw [List.reverse_cons, List.getLast?_concat]
      rw [List.getLast?_eq_getLast _ hne] at h1
      injection h1 with h1
      rw [h1]
      exact hb0
  -- unfold the encode
  simp only [bsEncode, hNval, ← hN, List.takeWhile_cons, hbeq, cond_false]
  rw [digitsLE_eq_digits (by norm_num), hds]
  -- the leading-zero prefix of the encode side is empty
  simp only [Bool.false_eq_true, if_false, List.takeWhile_nil, List.length_nil,
    List.replicate_zero, List.nil_append]
  -- unfold the decode
  simp only [bsDecode, string_mk_data]
  rw [show ((d :: ds).map b58CharOfDigit) = ((Nat.digits 58 N).reverse).map b58CharOfDigit by
        rw [hds],
      b58DecodeDigits_map _ hdlt, hds]
  simp only [Option.map_some']
  rw [List.takeWhile_cons]
  simp only [hdeq, Bool.false_eq_true, if_false, List.length_nil, List.replicate_zero,
    List.nil_append, hvalue]
  rw [natToBeBytes, digitsLE_eq_digits (by norm_num), hbytes, List.reverse_reverse]

/-! ## Rounding lemmas for `cardNumber` -/

/-- The fuel-based bit length is bounded by any exponent dominating `n`. -/
theorem bitlenAux_le : ∀ (fuel n k : Nat), n ≤ fuel → n < 2 ^ k → bitlenAux fuel n ≤ k := by
  intro fuel
  induction fuel with
  | zero =>
    intro n k hn _
    simp [show n = 0 by omega, bitlenAux]
  | succ f ih =>
    intro n k hn hk
    by_cases h0 : n = 0
    · simp [h0, bitlenAux]
    · have hk0 : k ≠ 0 := by
        intro h
        rw [h] at hk
        simp at hk
        omega
      simp only [bitlenAux, h0, if_false]
      have hdiv2 : n / 2 < 2 ^ (k - 1) := by
        rw [Nat.div_lt_iff_lt_mul (by norm_num : 0 < 2)]
        calc n < 2 ^ k := hk
          _ = 2 ^ (k - 1) * 2 := by
              rw [← pow_succ]
              congr 1
              omega
      have hrec := ih (n / 2) (k - 1) (by omega) hdiv2
      omega

/-- `bitlen n ≤ k` whenever `n < 2 ^ k`. -/
theorem bitlen_le {n k : Nat} (h : n < 2 ^ k) : bitlen n ≤ k :=
  bitlenAux_le n n k le_rfl h

/-- Integers below `2^53` are exact binary64 values. -/
theorem roundDouble_eq_of_small {n : Nat} (h : n < 9007199254740992) : roundDouble n = n := by
  have h53 : n < 2 ^ 53 := by
    have hp : (2:Nat) ^ 53 = 9007199254740992 := by norm_num
    omega
  have hb := bitlen_le h53
  unfold roundDouble
  rw [if_pos hb]

/-- Below `2^54` the binary64 rounding moves an integer by at most one. -/
theorem roundDouble_close {n : Nat} (h : n < 18014398509481984) :
    n - 1 ≤ roundDouble n ∧ roundDouble n ≤ n + 1 := by
  by_cases hb : bitlen n ≤ 53
  · unfold roundDouble
    rw [if_pos hb]
    omega
  · have h54 : n < 2 ^ 54 := by
      have hp : (2:Nat) ^ 54 = 18014398509481984 := by norm_num
      omega
    have hble := bitlen_le h54
    have hbeq : bitlen n = 54 := by omega
    unfold roundDouble
    rw [if_neg hb, hbeq]
    norm_num
    split_ifs <;> omega

/-- Range of the final rounded addition of `cardNumber`, for any value of
the (already rounded) 64-bit number. -/
theorem card_range_aux (x : Nat) :
    1000000000000000 ≤ roundDouble (1000000000000000 + x % 9000000000000000) ∧
      roundDouble (1000000000000000 + x % 9000000000000000) ≤ 10000000000000000 := by
  have hr : x % 9000000000000000 < 9000000000000000 := Nat.mod_lt _ (by norm_num)
  set r := x % 9000000000000000 with hrdef
  by_cases hsmall : 1000000000000000 + r < 9007199254740992
  · rw [roundDouble_eq_of_small hsmall]
    omega
  · have hclose := roundDouble_close (n := 1000000000000000 + r) (by omega)
    omega

/-! ## The claims -/

/-- Claim C1: the spec requires the short hash to be `RIPEMD160(SHA256(b))`
over the raw bytes with no textual re-encoding before the first stage or
between the stages; the source's `createHash` hex-re-encodes the SHA-256
digest (and text-decodes the input), so on the one-byte input `0x30` it
differs from the raw two-stage pipeline the spec (and its §9 note) demand. -/
theorem createHash_reencodes_text : createHash [48] ≠ specShortHash [48] := by
  decide

/-- Claim C2: `getAddress pk` is exactly the Base58 encoding of
`0x90 ‖ shortHash(pk) ‖ checksum(0x90 ‖ shortHash(pk))`, where the version
byte is the fixed constant `0x90 = 144`, the short hash is the library's
`createHash`, and the checksum is `createHash (createHash ·)` truncated to
its first `CHECKSUM_SIZE = 1` byte. -/
theorem getAddress_structure (pk : List Nat) :
    getAddress pk =
      bsEncode ((144 :: createHash pk) ++
        (createHash (createHash (144 :: createHash pk))).take 1) := rfl

/-- Claim C3: validating an address produced by `getAddress` always
succeeds — the encode/validate round trip returns `true` (a normal boolean
return, not an exception) for every public-key byte sequence. -/
theorem validateAddress_getAddress_roundtrip (pk : List Nat) :
    validateAddress (getAddress pk) = some true := by
  obtain ⟨c0, hc0lt, hcs⟩ := createChecksum_single (144 :: createHash pk)
  have hh20 := createHash_length pk
  have hdec : bsDecode (bsEncode (144 :: (createHash pk ++ [c0]))) =
      some (144 :: (createHash pk ++ [c0])) := by
    apply bsDecode_bsEncode 144 _ (by norm_num) (by norm_num)
    intro x hx
    rcases List.mem_append.mp hx with hx1 | hx2
    · exact createHash_mem_lt hx1
    · rw [List.mem_singleton.mp hx2]
      exact hc0lt
  have hga : getAddress pk = bsEncode (144 :: (createHash pk ++ [c0])) := by
    simp only [getAddress, hcs, List.cons_append]
  have hlen : (144 :: (createHash pk ++ [c0])).length - CHECKSUM_SIZE = 21 := by
    simp [hh20, CHECKSUM_SIZE]
  have hdrop : (144 :: (createHash pk ++ [c0])).drop 21 = [c0] := by
    rw [show (144 :: (createHash pk ++ [c0])) = (144 :: createHash pk) ++ [c0] by simp]
    apply List.drop_left'
    simp [hh20]
  simp only [validateAddress, hga, hdec, Option.map_some', List.headD_cons, hlen, hdrop,
    List.drop_succ_cons, List.drop_zero, List.dropLast_concat, hcs]
  simp

/-- Claim C4 (counterexample): on a string containing characters outside the
Base58 alphabet, `validateAddress` does not return the boolean `false` — the
`bs58.decode` exception escapes to the caller (`none` in the embedding). -/
theorem validateAddress_nonbase58_throws :
    validateAddress "not-base58-!!!" = none ∧
      validateAddress "not-base58-!!!" ≠ some false := by
  decide

/-- Claim C4 (amended): `validateAddress` raises (propagates the decode
exception) exactly on strings containing a character outside the Base58
alphabet; on alphabet-only strings it returns a boolean, and on the empty
string that boolean is `false`. -/
theorem validateAddress_throw_iff_nonalphabet (s : String) :
    (validateAddress s = none ↔ ∃ c ∈ s.data, b58DigitOfChar c = none) ∧
      validateAddress "" = some false := by
  constructor
  · simp only [validateAddress, bsDecode, Option.map_eq_none']
    exact b58DecodeDigits_eq_none_iff s.data
  · decide

/-- Claim C4 (witness): the spec's own negative example raises instead of
returning `false`. -/
theorem validateAddress_throw_iff_nonalphabet_witness :
    validateAddress "not-base58-!!!" = none :=
  (validateAddress_throw_iff_nonalphabet "not-base58-!!!").1.mpr
    ⟨'-', by decide, by decide⟩

/-- Claim C5: when the signature carries no recovery id, `recover` returns
the sentinel string `"invalid"` — a value of the same type as a successfully
recovered key — for every data string and every behaviour of the external
recovery primitive; no typed `RecoveryError` exists in the source. -/
theorem recover_missing_param_sentinel
    (recoverPubKey : String → ECSignature → Nat → Option String)
    (data : String) (sig : ECSignature) (h : sig.recoveryParam = none) :
    recover recoverPubKey data sig = "invalid" := by
  unfold recover
  rw [h]

/-- Claim C5 (witness): a concrete signature without a recovery id. -/
theorem recover_missing_param_sentinel_witness :
    recover (fun _ _ _ => none) "00" ⟨1, 1, none⟩ = "invalid" :=
  recover_missing_param_sentinel (fun _ _ _ => none) "00" ⟨1, 1, none⟩ rfl

/-- Claim C6 (counterexample): already on the empty string, `cardNumber`
differs from the exact formula `10^15 + (n mod 9·10^15)` with `n` the exact
64-bit value of the first 16 hex digits of the digest: `parseInt` rounds the
value to a binary64 double first (here by `+1004`). -/
theorem cardNumber_rounding_counterexample : cardNumber "" ≠ specCardNumber "" := by
  decide

/-- Claim C6 (amended): `cardNumber` computes the spec's formula under
binary64 rounding (applied by `parseInt` and by the final addition), and its
result always lies in `[10^15, 10^16]`; the stated upper bound `10^16 - 1`
can be exceeded by exactly one ulp-rounding step of the final addition. -/
theorem cardNumber_range (s : String) :
    1000000000000000 ≤ cardNumber s ∧ cardNumber s ≤ 10000000000000000 := by
  unfold cardNumber
  exact card_range_aux _

/-- Claim C9: `createHash` (and therefore `getAddress`) factors through the
UTF-8 replacement decoding of its input: any two byte sequences with the
same decoded text — e.g. any two distinct invalid bytes — get the same hash
and the same address. -/
theorem address_depends_only_on_text (b1 b2 : List Nat)
    (h : utf8DecodeReplace b1 = utf8DecodeReplace b2) :
    createHash b1 = createHash b2 ∧ getAddress b1 = getAddress b2 := by
  have hh : createHash b1 = createHash b2 := by
    unfold createHash
    rw [h]
  refine ⟨hh, ?_⟩
  unfold getAddress
  rw [hh]

/-- Claim C9 (witness): the invalid bytes `0x80` and `0xFF` both decode to
U+FFFD and collide. -/
theorem address_depends_only_on_text_witness :
    createHash [128] = createHash [255] ∧ getAddress [128] = getAddress [255] :=
  address_depends_only_on_text [128] [255] (by decide)

/-- Claim C10: on an address whose Base58 payload is the single byte `b`,
`validateAddress` uses `b` both as the version byte and as the stored
checksum: it returns `true` exactly when the first byte of
`createChecksum [b]` is `b` itself. -/
theorem validateAddress_single_byte (addr : String) (b : Nat)
    (h : bsDecode addr = some [b]) :
    (validateAddress addr = some true ↔ (createChecksum [b]).headD 0 = b) := by
  obtain ⟨c0, hc0lt, hcs⟩ := createChecksum_single [b]
  simp only [validateAddress, h, Option.map_some', List.headD_cons, List.drop_succ_cons,
    List.drop_zero, List.dropLast_nil, List.length_cons, List.length_nil, CHECKSUM_SIZE]
  norm_num
  rw [hcs]
  simp [List.headD_cons]

/-- Claim C10 (witness): the byte `19` is a checksum fixed point, so the
one-character address `"L"` — whose payload has no 20-byte hash body at
all — is accepted. -/
theorem validateAddress_single_byte_witness : validateAddress "L" = some true :=
  (validateAddress_single_byte "L" 19 (by decide)).mpr (by decide)

end Gliesereum
